import Mathlib

/-!
Verification development for the highlight-overlay engine of the
obsidian-clipper repository.

The TypeScript sources are shallowly embedded as executable Lean
definitions:

* text offset decoding (src/utils/highlighter-overlays.ts:
  shouldUseCanonicalOffsetDecoding, findTextNodeAtOffset,
  getLegacyTextOffset) over a list of text-node lengths — the DOM tree
  walker with the SHOW_TEXT filter visits exactly the text descendants of
  the anchor element in document order, and in both functions the walk
  begins at the tree-walker currentNode, which is the anchor element
  itself, whose own textContent length is the sum of all its text
  descendants;
* the merge policy (src/utils/highlight-merge-policy.ts:
  shouldAutoMergeHighlights, resolveHighlightColor);
* rectangle planning (src/utils/highlighter-overlays.ts:
  mergeHighlightOverlayRects, processRangeForOverlayRects,
  createHighlightOverlayElement) over rationals — DOMRect coordinates are
  binary floating point numbers, a subfield of the rationals, and none of
  the verified claims depend on rounding;
* timestamp fallback parsing (highlight-timestamp-utils) over a model of
  JavaScript runtime values;
* the annotation-browser snapshot (annotation-browser-panel data path);
* the offset-handle drag state machine (src/utils/highlighter-overlays.ts:
  beginOffsetHandleDrag, teardownOffsetHandleDrag,
  finalizeOffsetHandleDrag, updateSelectedTextHighlightFromSelection) as
  explicit state passing over an engine state record.
-/

/-! # JavaScript runtime values

A small model of the JavaScript values flowing through the untyped data
paths (storage entries, highlight ids, createdAt fields).  jnum carries a
finite number; jnonfinite stands for NaN and the infinities (typeof
number, but Number.isFinite is false).  Arrays and plain objects both
satisfy the isRecord check of the source (typeof value is "object" and
the value is not null).
-/

inductive JVal where
  | jstr : String → JVal
  | jnum : ℚ → JVal
  | jnonfinite : JVal
  | jbool : Bool → JVal
  | jnull : JVal
  | jundefined : JVal
  | jarr : List JVal → JVal
  | jobj : List (String × JVal) → JVal

/-- jsIsRecord models isRecord from the sources: typeof value is "object"
and value is not null.  JavaScript arrays are objects, so they pass. -/
def jsIsRecord : JVal → Bool
  | .jarr _ => true
  | .jobj _ => true
  | _ => false

/-- Property access v[k] on a model value, yielding undefined when the key
is absent or the value is not an object.  Array index properties are
reachable through their decimal string, as in JavaScript. -/
def jsGetField (v : JVal) (key : String) : JVal :=
  match v with
  | .jobj fields =>
    match fields.find? (fun f => f.1 == key) with
    | some f => f.2
    | none => .jundefined
  | .jarr elems =>
    match (elems.enum.find? (fun e => toString e.1 == key)) with
    | some e => e.2
    | none => .jundefined
  | _ => .jundefined

/-- Object.entries on a model value: key-value pairs of a plain object in
insertion order, index-string pairs of an array, and nothing otherwise. -/
def jsEntries : JVal → List (String × JVal)
  | .jobj fields => fields
  | .jarr elems => elems.enum.map (fun e => (toString e.1, e.2))
  | _ => []

/-- Longest leading run of decimal digits of a character list, read as a
number; none when the run is empty (parseInt would give NaN). -/
def jsDigitsValue (cs : List Char) : Option Nat :=
  let ds := cs.takeWhile Char.isDigit
  if ds.isEmpty then none
  else some (ds.foldl (fun acc c => acc * 10 + (c.toNat - 48)) 0)

/-- Number.parseInt(s, 10): skip leading whitespace, read an optional
sign, then the longest run of decimal digits; none models NaN.  (The
float rounding JavaScript applies to enormous digit strings is outside
the model; no verified claim depends on it.) -/
def jsParseInt (s : String) : Option Int :=
  let cs := s.data.dropWhile (fun c => c = ' ' ∨ c = '\t' ∨ c = '\n' ∨ c = '\r')
  match cs with
  | '-' :: rest => (jsDigitsValue rest).map (fun n => -(n : Int))
  | '+' :: rest => (jsDigitsValue rest).map (fun n => (n : Int))
  | _ => (jsDigitsValue cs).map (fun n => (n : Int))

/-! # Text offset decoding (highlighter-overlays.ts)

An anchor element is modelled by the list of the lengths of its text-node
descendants in document order.  The total text length of the element is
the sum of the list.
-/

/-- The while loop of findTextNodeAtOffset, walking the text nodes.
currentOffset starts at the length already consumed before the first text
node (0 in canonical mode; the whole element textContent length in legacy
mode, because the tree walker starts on the element node itself). -/
def findTextNodeAtOffsetAux (idx currentOffset offset : Nat) : List Nat → Option (Nat × Nat)
  | [] => none
  | nodeLength :: rest =>
    if offset ≤ currentOffset + nodeLength then
      some (idx, min (offset - currentOffset) nodeLength)
    else
      findTextNodeAtOffsetAux (idx + 1) (currentOffset + nodeLength) offset rest

/-- findTextNodeAtOffset: resolve a stored offset to a (text-node index,
local offset) pair.  In canonical mode the walk starts on the first text
descendant with nothing consumed; in legacy mode it starts on the anchor
element itself, so the element total text length is consumed before the
first text node is examined.  When no node reaches the offset, the first
text node with local offset 0 is returned, and none only when the element
has no text descendant at all. -/
def findTextNodeAtOffset (ns : List Nat) (offset : Nat) (useCanonicalOffsets : Bool) : Option (Nat × Nat) :=
  let initialConsumed := if useCanonicalOffsets then 0 else ns.sum
  match findTextNodeAtOffsetAux 0 initialConsumed offset ns with
  | some found => some found
  | none => if ns.isEmpty then none else some (0, 0)

/-- shouldUseCanonicalOffsetDecoding: canonical when either stored offset
is strictly below the element total text length (and that length is
positive); legacy otherwise. -/
def shouldUseCanonicalOffsetDecoding (ns : List Nat) (startOffset endOffset : Nat) : Bool :=
  let totalTextLength := ns.sum
  if totalTextLength ≤ 0 then false
  else decide (startOffset < totalTextLength) || decide (endOffset < totalTextLength)

/-- The decoding used by selectHighlightTextFromOpposingEdge and
planHighlightOverlayRects: pick the mode once from both stored offsets,
then resolve each of them in that mode. -/
def decodeTextHighlightOffsets (ns : List Nat) (startOffset endOffset : Nat) :
    Option ((Nat × Nat) × (Nat × Nat)) :=
  let useCanonicalOffsets := shouldUseCanonicalOffsetDecoding ns startOffset endOffset
  match findTextNodeAtOffset ns startOffset useCanonicalOffsets,
        findTextNodeAtOffset ns endOffset useCanonicalOffsets with
  | some startNodeResult, some endNodeResult => some (startNodeResult, endNodeResult)
  | _, _ => none

/-! # Merge policy (highlight-merge-policy.ts) -/

inductive HighlightType where
  | text
  | element
  | complex
deriving DecidableEq, Repr

inductive HighlightMergeRelationship where
  | adjacent
  | overlap
deriving DecidableEq, Repr

/-- A highlight record (AnyHighlightData).  color and notes are optional;
an explicitly empty color string is distinct from an absent one because
JavaScript treats both as falsy but only one is undefined. -/
structure HighlightRec where
  id : String
  type : HighlightType
  xpath : String
  startOffset : Nat
  endOffset : Nat
  content : String
  color : Option String
  notes : Option (List String)
deriving DecidableEq, Repr

def FALLBACK_HIGHLIGHT_COLOR : String := "#ffeb3b"

/-- resolveHighlightColor: highlight.color || FALLBACK_HIGHLIGHT_COLOR.
The JavaScript || also replaces an explicitly empty color string, since
the empty string is falsy. -/
def resolveHighlightColor (highlight : HighlightRec) : String :=
  match highlight.color with
  | some c => if c = "" then FALLBACK_HIGHLIGHT_COLOR else c
  | none => FALLBACK_HIGHLIGHT_COLOR

/-- shouldAutoMergeHighlights: overlap never merges; adjacent merges
unless both highlights are text highlights on the same xpath whose
resolved colors differ. -/
def shouldAutoMergeHighlights (highlight1 highlight2 : HighlightRec)
    (relationship : HighlightMergeRelationship) : Bool :=
  if relationship = .overlap then
    false
  else if highlight1.type == .text && highlight2.type == .text
      && highlight1.xpath == highlight2.xpath then
    resolveHighlightColor highlight1 == resolveHighlightColor highlight2
  else
    true

/-! # Overlay rectangle planning (highlighter-overlays.ts)

DOMRect coordinates are modelled as rationals.  left and top coincide
with x and y (all rectangles handled here have non-negative sizes), and
right is x + width.
-/

structure DomRect where
  x : ℚ
  y : ℚ
  width : ℚ
  height : ℚ
deriving DecidableEq, Repr

/-- The merge condition of the rect loop: the incoming rect matches the
running rect when the y positions and the heights each differ by less
than one pixel. -/
def rectMergeMatches (currentRect rect : DomRect) : Bool :=
  decide (|rect.y - currentRect.y| < 1) && decide (|rect.height - currentRect.height| < 1)

/-- The for loop of mergeHighlightOverlayRects once currentRect is
non-null: a matching rect extends the running rect (width becomes
rect.right - currentRect.left, keeping x, y, height); a mismatch emits
the running rect and restarts from the incoming rect; the final running
rect is emitted at the end. -/
def mergeRunAux (currentRect : DomRect) : List DomRect → List DomRect
  | [] => [currentRect]
  | rect :: rest =>
    if rectMergeMatches currentRect rect then
      mergeRunAux { currentRect with width := rect.x + rect.width - currentRect.x } rest
    else
      currentRect :: mergeRunAux rect rest

/-- The mergedRects list computed by mergeHighlightOverlayRects. -/
def mergedOverlayRects : List DomRect → List DomRect
  | [] => []
  | rect :: rest => mergeRunAux rect rest

/-- The client rect of an overlay created by createHighlightOverlayElement:
the element is absolutely positioned at left - 2 / top - 2 with width + 4
and height + 4, so its getBoundingClientRect is the planned rect expanded
by two pixels on each edge. -/
def overlayClientRect (rect : DomRect) : DomRect :=
  { x := rect.x - 2, y := rect.y - 2, width := rect.width + 4, height := rect.height + 4 }

/-- The duplicate test of mergeHighlightOverlayRects: a planned rect is a
duplicate of an existing overlay when left, top, width and height each
differ by less than one pixel from the bounding client rect of that
overlay. -/
def rectsWithinOnePixel (rect overlayRect : DomRect) : Bool :=
  decide (|rect.x - overlayRect.x| < 1) && decide (|rect.y - overlayRect.y| < 1) &&
  decide (|rect.width - overlayRect.width| < 1) && decide (|rect.height - overlayRect.height| < 1)

/-- Array.isArray(notes) && notes.length > 0: the notes value is an array
with at least one element.  The contents of the notes are not examined. -/
def notesListNonempty : Option (List String) → Bool
  | some l => !l.isEmpty
  | none => false

/-- An overlay element as created by createHighlightOverlayElement for one
merged rect: the planned rect, the on-screen client rect, the index of
the rect within the merged list of its batch, and the comment badge
flag. -/
structure CreatedOverlay where
  planned : DomRect
  clientRect : DomRect
  mergedIndex : Nat
  showCommentBadge : Bool
deriving DecidableEq, Repr

/-- The forEach over mergedRects with its index: drop a rect that
duplicates an existing overlay, create the overlay element otherwise.
The comment badge is requested exactly for merged-rect index 0 of a
batch whose notes array is non-empty. -/
def createOverlaysForMergedRects (existingOverlayRects : List DomRect)
    (notes : Option (List String)) (rectIndex : Nat) : List DomRect → List CreatedOverlay
  | [] => []
  | rect :: rest =>
    let isDuplicate := existingOverlayRects.any (fun overlayRect => rectsWithinOnePixel rect overlayRect)
    if isDuplicate then
      createOverlaysForMergedRects existingOverlayRects notes (rectIndex + 1) rest
    else
      { planned := rect
        clientRect := overlayClientRect rect
        mergedIndex := rectIndex
        showCommentBadge := notesListNonempty notes && rectIndex == 0 } ::
      createOverlaysForMergedRects existingOverlayRects notes (rectIndex + 1) rest

/-- mergeHighlightOverlayRects: merge the incoming rects, drop every
merged rect that duplicates an existing overlay (comparing against the
bounding client rects of the existing overlay elements), and create an
overlay element for each surviving rect. -/
def mergeHighlightOverlayRects (rects : List DomRect) (existingOverlayRects : List DomRect)
    (notes : Option (List String)) : List CreatedOverlay :=
  createOverlaysForMergedRects existingOverlayRects notes 0 (mergedOverlayRects rects)

/-- calculateAverageLineHeight: arithmetic mean of the rect heights (the
callers only use it on non-empty lists). -/
def calculateAverageLineHeight (rects : List DomRect) : ℚ :=
  ((rects.map (fun r => r.height)).sum) / rects.length

/-- processRangeForOverlayRects: with no client rects, fall back to the
element bounding rect; otherwise split the rects at 1.5 times the average
height into a text-line group and a complex group and run each non-empty
group through mergeHighlightOverlayRects as its own batch. -/
def processRangeForOverlayRects (rangeRects : List DomRect) (fallbackRect : DomRect)
    (existingOverlayRects : List DomRect) (notes : Option (List String)) : List CreatedOverlay :=
  if rangeRects.isEmpty then
    mergeHighlightOverlayRects [fallbackRect] existingOverlayRects notes
  else
    let averageLineHeight := calculateAverageLineHeight rangeRects
    let textRects := rangeRects.filter (fun r => decide (r.height ≤ averageLineHeight * (3 / 2)))
    let complexRects := rangeRects.filter (fun r => decide (r.height > averageLineHeight * (3 / 2)))
    (if textRects.isEmpty then [] else mergeHighlightOverlayRects textRects existingOverlayRects notes) ++
    (if complexRects.isEmpty then [] else mergeHighlightOverlayRects complexRects existingOverlayRects notes)

/-! # Highlight timestamp utilities (highlight-timestamp-utils.ts) -/

/-- isValidHighlightTimestamp: typeof value is "number", Number.isFinite,
and strictly positive. -/
def isValidHighlightTimestamp : JVal → Bool
  | .jnum q => decide (0 < q)
  | _ => false

/-- The numeric payload of a model value (only consulted where the source
has already checked that the value is a finite number). -/
def jsNumValue : JVal → ℚ
  | .jnum q => q
  | _ => 0

/-- parseHighlightIdTimestamp: non-strings give no timestamp; a string is
run through Number.parseInt(id, 10) and the result is kept only when it
is finite and strictly positive. -/
def parseHighlightIdTimestamp : JVal → Option ℚ
  | .jstr s =>
    match jsParseInt s with
    | some parsedIdTimestamp =>
      if 0 < parsedIdTimestamp then some (parsedIdTimestamp : ℚ) else none
    | none => none
  | _ => none

/-- resolveHighlightCreatedAt: the first candidate that is a finite
strictly positive number wins; with no such candidate the caller gets the
current time (Date.now(), passed in as now). -/
def resolveHighlightCreatedAt (now : ℚ) : List (Option ℚ) → ℚ
  | [] => now
  | candidate :: rest =>
    match candidate with
    | some q => if 0 < q then q else resolveHighlightCreatedAt now rest
    | none => resolveHighlightCreatedAt now rest

/-- normalizeHighlightCreatedAt: prefer a valid createdAt, then the
timestamp parsed from the highlight id, then the current time. -/
def normalizeHighlightCreatedAt (createdAt highlightId : JVal) (now : ℚ) : ℚ :=
  resolveHighlightCreatedAt now
    [ (if isValidHighlightTimestamp createdAt then some (jsNumValue createdAt) else none),
      parseHighlightIdTimestamp highlightId ]

/-- The property the spec attaches to the fallback parser: the identifier
is a string that Number.parseInt reads as a strictly positive integer. -/
def idParsesToPositiveInt (v : JVal) : Prop :=
  ∃ s n, v = JVal.jstr s ∧ jsParseInt s = some n ∧ 0 < n

/-! # Annotation browser snapshot (annotation-browser-panel data path)

The URL constructor and decodeURIComponent are platform primitives, not
repository code; they are supplied through a UrlPlatform record of the
observations the source makes on a parsed URL (hostname, pathname, and
the toString serialization), together with the clock read by
Date.now(). -/

structure UrlParts where
  hostname : String
  pathname : String
  href : String
deriving DecidableEq, Repr

structure UrlPlatform where
  parseUrl : String → Option UrlParts
  decodeUriComponent : String → Option String
  now : ℚ

structure AnnotationBrowserPage where
  url : String
  title : String
  siteLabel : String
  path : String
  annotationsCount : Nat
  firstCreatedAt : ℚ
  lastCreatedAt : ℚ
deriving DecidableEq, Repr

structure AnnotationBrowserSnapshot where
  totalPages : Nat
  totalAnnotations : Nat
  recentPages : List AnnotationBrowserPage
  mostAnnotatedPages : List AnnotationBrowserPage
deriving DecidableEq, Repr

/-- getHighlightCreatedAt: null for non-record highlight entries,
otherwise the normalized createdAt of the record. -/
def getHighlightCreatedAt (pf : UrlPlatform) (highlight : JVal) : Option ℚ :=
  if jsIsRecord highlight then
    some (normalizeHighlightCreatedAt (jsGetField highlight "createdAt") (jsGetField highlight "id") pf.now)
  else
    none

/-- decodeUriComponentSafe: decodeURIComponent, falling back to the input
when decoding throws. -/
def decodeUriComponentSafe (pf : UrlPlatform) (value : String) : String :=
  match pf.decodeUriComponent value with
  | some decoded => decoded
  | none => value

/-- The regular expression of normalizeTitleSegment stripping one trailing
file extension: a dot followed by two to five ASCII letters or digits at
the end of the string. -/
def stripFileExtension (s : String) : String :=
  let rev := s.data.reverse
  let ext := rev.takeWhile (fun c => c ≠ '.')
  match rev.drop ext.length with
  | '.' :: before =>
    if 2 ≤ ext.length ∧ ext.length ≤ 5 ∧ ext.all (fun c => c.isDigit ∨ c.isAlpha) then
      String.mk before.reverse
    else s
  | _ => s

/-- One character step of the two replace calls of normalizeTitleSegment:
plus, underscore and hyphen become spaces first, and every whitespace
character participates in the later whitespace collapse. -/
def titleSeparatorToSpace (c : Char) : Char :=
  if c = '+' ∨ c = '_' ∨ c = '-' then ' ' else if c.isWhitespace then ' ' else c

/-- Collapse runs of spaces to a single space (the composed effect of
replacing separator runs and whitespace runs by single spaces).  The
boolean records whether the previous character was part of a space
run. -/
def collapseSpacesAux : Bool → List Char → List Char
  | _, [] => []
  | prevSpace, c :: rest =>
    if c = ' ' then
      if prevSpace then collapseSpacesAux true rest
      else ' ' :: collapseSpacesAux true rest
    else
      c :: collapseSpacesAux false rest

def collapseSpaces (cs : List Char) : List Char :=
  collapseSpacesAux false cs

/-- normalizeTitleSegment: strip a file extension, decode the URI
component, replace separator and whitespace runs by single spaces, and
trim. -/
def normalizeTitleSegment (pf : UrlPlatform) (segment : String) : String :=
  let withoutExtension := stripFileExtension segment
  let decoded := decodeUriComponentSafe pf withoutExtension
  (String.mk (collapseSpaces (decoded.data.map titleSeparatorToSpace))).trim

/-- isWikipediaHost: the bare wikipedia.org host or any of its
subdomains. -/
def isWikipediaHost (hostname : String) : Bool :=
  hostname == "wikipedia.org" || hostname.endsWith ".wikipedia.org"

/-- derivePageTitle: a wiki slug title when on a wikipedia host under
/wiki/ and the normalized slug is non-empty; otherwise the last path
segment with a non-empty normalization; otherwise the hostname. -/
def derivePageTitle (pf : UrlPlatform) (url : UrlParts) : String :=
  let wikiTitle :=
    if isWikipediaHost url.hostname && url.pathname.startsWith "/wiki/" then
      normalizeTitleSegment pf (url.pathname.drop 6)
    else ""
  if wikiTitle.length > 0 then wikiTitle
  else
    let pathSegments := (url.pathname.splitOn "/").filter (fun segment => segment.length > 0)
    match (pathSegments.reverse.map (normalizeTitleSegment pf)).find? (fun t => t.length > 0) with
    | some title => title
    | none => url.hostname

/-- deriveSiteLabel: a Wikipedia label on wikipedia hosts, the hostname
otherwise. -/
def deriveSiteLabel (url : UrlParts) : String :=
  if isWikipediaHost url.hostname then "Wikipedia (" ++ url.hostname ++ ")"
  else url.hostname

/-- derivePathLabel: "/" for an empty or root pathname, otherwise the
safely decoded pathname. -/
def derivePathLabel (pf : UrlPlatform) (url : UrlParts) : String :=
  if url.pathname = "" ∨ url.pathname = "/" then "/"
  else decodeUriComponentSafe pf url.pathname

/-- Math.min over a spread timestamp list (callers guarantee the list is
non-empty). -/
def listMinQ : List ℚ → ℚ
  | [] => 0
  | q :: rest => rest.foldl min q

/-- Math.max over a spread timestamp list (callers guarantee the list is
non-empty). -/
def listMaxQ : List ℚ → ℚ
  | [] => 0
  | q :: rest => rest.foldl max q

/-- The raw URL of a storage entry: the url field when it is a string,
the storage key otherwise. -/
def entryRawUrl (kv : String × JVal) : String :=
  match jsGetField kv.2 "url" with
  | .jstr s => s
  | _ => kv.1

/-- The highlights array of a storage entry ([] when absent or not an
array). -/
def entryHighlights (entry : JVal) : List JVal :=
  match jsGetField entry "highlights" with
  | .jarr l => l
  | _ => []

/-- The timestamps contributed by the highlights of one entry. -/
def entryHighlightTimestamps (pf : UrlPlatform) (kv : String × JVal) : List ℚ :=
  (entryHighlights kv.2).filterMap (getHighlightCreatedAt pf)

/-- The loop body of buildAnnotationBrowserSnapshot for one storage
entry: skip non-record entries, entries whose URL does not parse, entries
with an empty highlights array, and entries contributing no timestamp;
otherwise emit the page summary. -/
def annotationPageOfEntry (pf : UrlPlatform) (kv : String × JVal) : Option AnnotationBrowserPage :=
  if !jsIsRecord kv.2 then none
  else
    match pf.parseUrl (entryRawUrl kv) with
    | none => none
    | some parsedUrl =>
      if (entryHighlights kv.2).isEmpty then none
      else
        let highlightTimestamps := entryHighlightTimestamps pf kv
        if highlightTimestamps.isEmpty then none
        else some
          { url := parsedUrl.href
            title := derivePageTitle pf parsedUrl
            siteLabel := deriveSiteLabel parsedUrl
            path := derivePathLabel pf parsedUrl
            annotationsCount := highlightTimestamps.length
            firstCreatedAt := listMinQ highlightTimestamps
            lastCreatedAt := listMaxQ highlightTimestamps }

/-- The pages array accumulated by the entry loop. -/
def annotationPages (pf : UrlPlatform) (storage : JVal) : List AnnotationBrowserPage :=
  (jsEntries storage).filterMap (annotationPageOfEntry pf)

/-- sortByMostRecentLast as the boolean "comes no later than" relation
used by the sort model: latest lastCreatedAt first, then most
annotations, then title order (localeCompare is modelled as code-point
comparison). -/
def sortByMostRecentLastLe (left right : AnnotationBrowserPage) : Bool :=
  if left.lastCreatedAt ≠ right.lastCreatedAt then
    decide (right.lastCreatedAt ≤ left.lastCreatedAt)
  else if left.annotationsCount ≠ right.annotationsCount then
    decide (right.annotationsCount ≤ left.annotationsCount)
  else
    decide (left.title ≤ right.title)

/-- sortByMostAnnotations as the boolean relation used by the sort model:
most annotations first, then latest lastCreatedAt, then title order. -/
def sortByMostAnnotationsLe (left right : AnnotationBrowserPage) : Bool :=
  if left.annotationsCount ≠ right.annotationsCount then
    decide (right.annotationsCount ≤ left.annotationsCount)
  else if left.lastCreatedAt ≠ right.lastCreatedAt then
    decide (right.lastCreatedAt ≤ left.lastCreatedAt)
  else
    decide (left.title ≤ right.title)

/-- buildAnnotationBrowserSnapshot: empty snapshot for a non-record
storage value; otherwise the emitted pages with their count, the sum of
their annotation counts, and the two sorted views ([...pages].sort with
the respective comparators, modelled by a stable merge sort). -/
def buildAnnotationBrowserSnapshot (pf : UrlPlatform) (storage : JVal) : AnnotationBrowserSnapshot :=
  if !jsIsRecord storage then
    { totalPages := 0, totalAnnotations := 0, recentPages := [], mostAnnotatedPages := [] }
  else
    let pages := annotationPages pf storage
    { totalPages := pages.length
      totalAnnotations := (pages.map (fun p => p.annotationsCount)).sum
      recentPages := pages.mergeSort sortByMostRecentLastLe
      mostAnnotatedPages := pages.mergeSort sortByMostAnnotationsLe }

/-- An entry is excluded by the spec exactly when its URL does not parse
or it contributes no highlight with a resolvable timestamp. -/
def entryExcluded (pf : UrlPlatform) (kv : String × JVal) : Bool :=
  (pf.parseUrl (entryRawUrl kv)).isNone || (entryHighlightTimestamps pf kv).isEmpty

/-! # Offset-handle drag controller (highlighter-overlays.ts)

The module-level mutable state of the content script is gathered into an
EngineState record and the event handlers become state transition
functions.  The model keeps one resolved anchor element (the text nodes
of the selected text highlight target); selection boundaries are
(text-node index, local offset) pairs into that element.  The external
collaborators from highlighter.ts (updateHighlights, sortHighlights,
applyHighlights, saveHighlights, updateHighlighterMenu) are not under
src/.  Modelled from the spec: persistHighlights stores the updated
sequence and notifyHighlightsChanged re-renders; neither alters record
contents, so the model stores the mapped sequence and counts one
persistence invocation.
-/

inductive OffsetHandleEdge where
  | edgeStart
  | edgeEnd
deriving DecidableEq, Repr

inductive OffsetHandleDragInputType where
  | pointer
  | mouse
deriving DecidableEq, Repr

/-- A selection boundary: a text-node index within the anchor element and
a character offset local to that node. -/
structure SelPoint where
  node : Nat
  offset : Nat
deriving DecidableEq, Repr

/-- The single range of the native selection, as returned by
getRangeAt(0).  The two boundaries are stored as the range reports them;
nothing here assumes they are ordered. -/
structure SelectionModel where
  rangeStart : SelPoint
  rangeEnd : SelPoint
deriving DecidableEq, Repr

/-- OffsetHandleDragState: the drag session record. -/
structure OffsetHandleDragState where
  anchorNode : Nat
  anchorOffset : Nat
  edge : OffsetHandleEdge
  pointerId : Option Nat
  inputType : OffsetHandleDragInputType
  startClientX : Int
  startClientY : Int
  hasMoved : Bool
  initialSelectionText : String
  disabledOverlayPointerEvents : List (Nat × String)
deriving DecidableEq, Repr

/-- The module state of highlighter-overlays.ts together with the page
state it manipulates.  overlayPointerEvents holds the inline
pointer-events style value of each overlay element in document order;
dragListenersInstalled stands for the five drag-scoped document listeners
that are always added and removed together; capturedPointer is the
pointer id currently captured by a handle, if any. -/
structure EngineState where
  pageTextNodes : List String
  xpathResolves : String → Bool
  highlights : List HighlightRec
  selectedHighlightId : Option String
  selectedHighlightIndex : Option String
  selection : Option SelectionModel
  overlayPointerEvents : List String
  dragListenersInstalled : Bool
  capturedPointer : Option Nat
  draggingClass : Bool
  suppressNextMouseUpHighlight : Bool
  activeOffsetHandleDrag : Option OffsetHandleDragState
  persistCalls : Nat

/-- The text-node lengths of the anchor element. -/
def textNodeLengths (s : EngineState) : List Nat :=
  s.pageTextNodes.map String.length

/-- The character position of a boundary counted from the start of the
anchor element (document order of selection boundaries). -/
def canonicalPos (ns : List Nat) (p : SelPoint) : Nat :=
  (ns.take p.node).sum + p.offset

/-- The concatenated text content of the anchor element. -/
def pageText (s : EngineState) : String :=
  String.join s.pageTextNodes

/-- selection.toString(): the document text between the two boundaries
(in either order). -/
def selectionToString (s : EngineState) : String :=
  match s.selection with
  | none => ""
  | some sel =>
    let ns := textNodeLengths s
    let a := canonicalPos ns sel.rangeStart
    let b := canonicalPos ns sel.rangeEnd
    String.mk (((pageText s).data.drop (min a b)).take (max a b - min a b))

/-- selection.isCollapsed (true as well when there is no range). -/
def selectionIsCollapsed (s : EngineState) : Bool :=
  match s.selection with
  | none => true
  | some sel => sel.rangeStart == sel.rangeEnd

/-- resolveSelectedTextHighlight: find the selected highlight by id (a
non-empty selectedHighlightId), falling back to the parsed positional
index; require a text highlight whose xpath resolves to a live
element. -/
def resolveSelectedTextHighlight (s : EngineState) : Option HighlightRec :=
  let byId :=
    match s.selectedHighlightId with
    | some selId => if selId = "" then none else s.highlights.find? (fun item => item.id == selId)
    | none => none
  let chosen :=
    match byId with
    | some h => some h
    | none =>
      match s.selectedHighlightIndex with
      | some idxStr =>
        if idxStr = "" then none
        else
          match jsParseInt idxStr with
          | some parsedIndex =>
            if 0 ≤ parsedIndex ∧ parsedIndex < s.highlights.length then
              s.highlights[parsedIndex.toNat]?
            else none
          | none => none
      | none => none
  match chosen with
  | none => none
  | some selectedHighlight =>
    if selectedHighlight.type == .text && s.xpathResolves selectedHighlight.xpath then
      some selectedHighlight
    else none

/-- getLegacyTextOffset: the tree walker starts on the container element
itself, so the full container text length is consumed before the first
text node; a boundary inside text node i therefore maps to
total + (lengths before i) + local offset, and a boundary whose node is
never reached accumulates every node once more. -/
def getLegacyTextOffset (ns : List Nat) (p : SelPoint) : Nat :=
  if p.node < ns.length then ns.sum + (ns.take p.node).sum + p.offset
  else ns.sum + ns.sum

/-- List.map with the element index, as in the JavaScript map
callback. -/
def jsMapWithIndexAux (f : Nat → α → β) (i : Nat) : List α → List β
  | [] => []
  | a :: rest => f i a :: jsMapWithIndexAux f (i + 1) rest

def jsMapWithIndex (f : Nat → α → β) (l : List α) : List β :=
  jsMapWithIndexAux f 0 l

/-- The per-item match test of updateSelectedTextHighlightFromSelection:
matched by a non-empty selected id, or by the stringified positional
index. -/
def isTargetHighlightAt (s : EngineState) (index : Nat) (item : HighlightRec) : Bool :=
  let itemMatchesById :=
    match s.selectedHighlightId with
    | some selId => !(selId == "") && item.id == selId
    | none => false
  let itemMatchesByIndex := s.selectedHighlightIndex == some (toString index)
  itemMatchesById || itemMatchesByIndex

/-- updateSelectedTextHighlightFromSelection: bail out on an empty or
collapsed selection or an unresolvable selected text highlight; derive
raw offsets for both range boundaries through getLegacyTextOffset,
order them, and bail out when they coincide; otherwise write the ordered
offsets and the selection text into every matching text highlight and
invoke the persistence collaborator once. -/
def updateSelectedTextHighlightFromSelection (s : EngineState) : EngineState × Bool :=
  match s.selection with
  | none => (s, false)
  | some sel =>
    if sel.rangeStart == sel.rangeEnd then (s, false)
    else
      match resolveSelectedTextHighlight s with
      | none => (s, false)
      | some _ =>
        let ns := textNodeLengths s
        let rawStart := getLegacyTextOffset ns sel.rangeStart
        let rawEnd := getLegacyTextOffset ns sel.rangeEnd
        let startOffset := min rawStart rawEnd
        let endOffset := max rawStart rawEnd
        if startOffset == endOffset then (s, false)
        else
          let selectedContent := selectionToString s
          let mapped := jsMapWithIndex (fun index item =>
            if isTargetHighlightAt s index item && item.type == .text then
              { item with startOffset := startOffset, endOffset := endOffset, content := selectedContent }
            else item) s.highlights
          ({ s with highlights := mapped, persistCalls := s.persistCalls + 1 }, true)

/-- applyNativeSelection: set the native selection from anchor to focus;
the range subsequently reported by getRangeAt(0) is normalized to
document order. -/
def applyNativeSelection (anchor focus : SelPoint) (s : EngineState) : EngineState :=
  let ns := textNodeLengths s
  if canonicalPos ns anchor ≤ canonicalPos ns focus then
    { s with selection := some { rangeStart := anchor, rangeEnd := focus } }
  else
    { s with selection := some { rangeStart := focus, rangeEnd := anchor } }

/-- teardownOffsetHandleDrag: restore the saved pointer-events value of
every suspended overlay, remove the five drag-scoped document listeners,
release the captured pointer of the session (when it had one), clear the
dragging visual state, and clear the session slot. -/
def teardownOffsetHandleDrag (s : EngineState) : EngineState :=
  match s.activeOffsetHandleDrag with
  | none => s
  | some drag =>
    let restoredOverlays :=
      drag.disabledOverlayPointerEvents.foldl (fun acc p => acc.set p.1 p.2) s.overlayPointerEvents
    let releasedCapture :=
      match drag.pointerId with
      | some pid => if s.capturedPointer == some pid then none else s.capturedPointer
      | none => s.capturedPointer
    { s with
      overlayPointerEvents := restoredOverlays
      dragListenersInstalled := false
      capturedPointer := releasedCapture
      draggingClass := false
      activeOffsetHandleDrag := none }

/-- The resolution part of selectHighlightTextFromOpposingEdge: decode
the stored offsets of the selected text highlight and return the
(anchor, focus) pair with the anchor on the edge opposite to the dragged
handle. -/
def resolveOpposingEdgeAnchor (edge : OffsetHandleEdge) (s : EngineState) : Option (SelPoint × SelPoint) :=
  match resolveSelectedTextHighlight s with
  | none => none
  | some highlight =>
    let ns := textNodeLengths s
    match decodeTextHighlightOffsets ns highlight.startOffset highlight.endOffset with
    | none => none
    | some (startNodeResult, endNodeResult) =>
      let startPoint : SelPoint := { node := startNodeResult.1, offset := startNodeResult.2 }
      let endPoint : SelPoint := { node := endNodeResult.1, offset := endNodeResult.2 }
      match edge with
      | .edgeStart => some (endPoint, startPoint)
      | .edgeEnd => some (startPoint, endPoint)

/-- The installation tail of beginOffsetHandleDrag: record and disable
the pointer events of every overlay, build the session record (snapshot
of the selection text, nothing moved yet), raise the dragging state,
capture the pointer for pointer input, and add the drag-scoped document
listeners. -/
def installOffsetHandleDragSession (edge : OffsetHandleEdge) (clientX clientY : Int)
    (inputType : OffsetHandleDragInputType) (pointerId : Option Nat) (anchor : SelPoint)
    (s : EngineState) : EngineState :=
  let disabledOverlayPointerEvents := (List.range s.overlayPointerEvents.length).zip s.overlayPointerEvents
  let suspended := { s with overlayPointerEvents := s.overlayPointerEvents.map (fun _ => "none") }
  let drag : OffsetHandleDragState :=
    { anchorNode := anchor.node
      anchorOffset := anchor.offset
      edge := edge
      pointerId := pointerId
      inputType := inputType
      startClientX := clientX
      startClientY := clientY
      hasMoved := false
      initialSelectionText := selectionToString suspended
      disabledOverlayPointerEvents := disabledOverlayPointerEvents }
  let captured :=
    match inputType, pointerId with
    | .pointer, some pid => some pid
    | _, _ => suspended.capturedPointer
  { suspended with
    activeOffsetHandleDrag := some drag
    draggingClass := true
    capturedPointer := captured
    dragListenersInstalled := true }

/-- beginOffsetHandleDrag: resolve the opposing-edge anchor and apply the
native selection (selectHighlightTextFromOpposingEdge); bail out when
resolution fails; tear down a still-active prior session; then suspend
the overlays and install the new session. -/
def beginOffsetHandleDrag (edge : OffsetHandleEdge) (clientX clientY : Int)
    (inputType : OffsetHandleDragInputType) (pointerId : Option Nat)
    (s : EngineState) : EngineState :=
  match resolveOpposingEdgeAnchor edge s with
  | none => s
  | some (anchor, focus) =>
    let afterSelect := applyNativeSelection anchor focus s
    let afterTeardown :=
      if afterSelect.activeOffsetHandleDrag.isSome then teardownOffsetHandleDrag afterSelect
      else afterSelect
    installOffsetHandleDragSession edge clientX clientY inputType pointerId anchor afterTeardown

/-- finalizeOffsetHandleDrag: read the selection text, decide whether the
selection materially changed (the pointer moved beyond the threshold or
the text differs from the pre-drag snapshot), tear the session down and
arm the mouse-up suppression; an unchanged or collapsed selection is
discarded without persisting, otherwise the selection is committed and
cleared. -/
def finalizeOffsetHandleDrag (clientX clientY : Int) (s : EngineState) : EngineState :=
  match s.activeOffsetHandleDrag with
  | none => s
  | some drag =>
    let currentSelectionText := selectionToString s
    let didChangeSelection := drag.hasMoved || !(currentSelectionText == drag.initialSelectionText)
    let s1 := teardownOffsetHandleDrag s
    let s2 := { s1 with suppressNextMouseUpHighlight := true }
    if !didChangeSelection || selectionIsCollapsed s2 then s2
    else
      let committed := updateSelectedTextHighlightFromSelection s2
      if committed.2 then
        { committed.1 with selection := none }
      else committed.1

/-! # Concrete sample states for witnesses -/

def sampleTextHighlight : HighlightRec :=
  { id := "h1", type := .text, xpath := "p", startOffset := 0, endOffset := 5,
    content := "hello", color := some "#ffeb3b", notes := none }

def sampleDragSession : OffsetHandleDragState :=
  { anchorNode := 0, anchorOffset := 5, edge := .edgeStart, pointerId := some 5,
    inputType := .pointer, startClientX := 1, startClientY := 2, hasMoved := false,
    initialSelectionText := "", disabledOverlayPointerEvents := [(0, "auto"), (1, "all")] }

def sampleActiveDragState : EngineState :=
  { pageTextNodes := ["hello world"], xpathResolves := fun _ => true,
    highlights := [sampleTextHighlight], selectedHighlightId := some "h1",
    selectedHighlightIndex := none, selection := none,
    overlayPointerEvents := ["none", "none"], dragListenersInstalled := true,
    capturedPointer := some 5, draggingClass := true,
    suppressNextMouseUpHighlight := false,
    activeOffsetHandleDrag := some sampleDragSession, persistCalls := 7 }

def sampleUrlPlatform : UrlPlatform :=
  { parseUrl := fun _ => none, decodeUriComponent := fun s => some s, now := 1 }

def sampleReversedSelectionState : EngineState :=
  { pageTextNodes := ["ab"], xpathResolves := fun _ => true,
    highlights := [sampleTextHighlight], selectedHighlightId := some "h1",
    selectedHighlightIndex := none,
    selection := some { rangeStart := { node := 0, offset := 2 }, rangeEnd := { node := 0, offset := 0 } },
    overlayPointerEvents := [], dragListenersInstalled := false,
    capturedPointer := none, draggingClass := false,
    suppressNextMouseUpHighlight := false, activeOffsetHandleDrag := none, persistCalls := 0 }

/-! # Theorems -/

/-- The walk of findTextNodeAtOffset returns the first node at which the
consumed length plus the node length reaches the stored offset, with the
stored offset minus the length consumed before that node as the local
offset. -/
theorem findTextNodeAtOffsetAux_spec :
    ∀ (ns : List Nat) (idx cur o i : Nat),
      i < ns.length →
      (∀ j, j < i → cur + (ns.take (j + 1)).sum < o) →
      o ≤ cur + (ns.take (i + 1)).sum →
      findTextNodeAtOffsetAux idx cur o ns = some (idx + i, o - (cur + (ns.take i).sum)) := by
  intro ns
  induction ns with
  | nil =>
    intro idx cur o i hi
    exact absurd hi (by simp)
  | cons n rest ih =>
    intro idx cur o i hi hmin hreach
    cases i with
    | zero =>
      have hcond : o ≤ cur + n := by
        simpa using hreach
      have hsub : o - cur ≤ n := by omega
      simp [findTextNodeAtOffsetAux, hcond, Nat.min_eq_left hsub]
    | succ k =>
      have hlt : cur + n < o := by
        simpa using hmin 0 (Nat.succ_pos k)
      have hcond : ¬ o ≤ cur + n := by omega
      have hk : k < rest.length := by
        simpa using hi
      have hmin2 : ∀ j, j < k → (cur + n) + (rest.take (j + 1)).sum < o := by
        intro j hj
        have := hmin (j + 1) (by omega)
        simpa [List.take_succ_cons, Nat.add_assoc] using this
      have hreach2 : o ≤ (cur + n) + (rest.take (k + 1)).sum := by
        simpa [List.take_succ_cons, Nat.add_assoc] using hreach
      have h := ih (idx + 1) (cur + n) o k hk hmin2 hreach2
      simp only [findTextNodeAtOffsetAux, if_neg hcond]
      rw [h]
      have htake : ((n :: rest).take (k + 1)).sum = n + (rest.take k).sum := by
        simp
      simp only [Option.some.injEq, Prod.mk.injEq]
      exact ⟨by omega, by rw [htake]; omega⟩

/-- Claim C1: for a text highlight resolved against an anchor element
with total text length L, decoding is canonical exactly when
startOffset < L or endOffset < L; otherwise both offsets are decoded as
legacy, walking the text descendants in document order, accumulating
lengths (starting from the element total, which the walker consumes on
the anchor element itself), until the cumulative length first reaches or
exceeds the stored offset, the local offset being the stored offset
minus the length consumed before that node; in particular with L = 20
and stored offsets (23, 27) the decoded local offsets are (3, 7) in the
single text node. -/
theorem offsetDecoding_mode_and_legacy_walk :
    (∀ (ns : List Nat) (startOffset endOffset : Nat),
      shouldUseCanonicalOffsetDecoding ns startOffset endOffset =
        (decide (startOffset < ns.sum) || decide (endOffset < ns.sum)))
    ∧ (∀ (ns : List Nat) (offset i : Nat),
      i < ns.length →
      (∀ j, j < i → ns.sum + (ns.take (j + 1)).sum < offset) →
      offset ≤ ns.sum + (ns.take (i + 1)).sum →
      findTextNodeAtOffset ns offset false = some (i, offset - (ns.sum + (ns.take i).sum)))
    ∧ (shouldUseCanonicalOffsetDecoding [20] 23 27 = false
      ∧ decodeTextHighlightOffsets [20] 23 27 = some ((0, 3), (0, 7))) := by
  refine ⟨?_, ?_, ?_, ?_⟩
  · intro ns startOffset endOffset
    by_cases h : ns.sum = 0
    · simp [shouldUseCanonicalOffsetDecoding, h]
    · simp [shouldUseCanonicalOffsetDecoding, h, Nat.pos_of_ne_zero h, Nat.not_le.mpr (Nat.pos_of_ne_zero h)]
  · intro ns offset i hi hmin hreach
    have h := findTextNodeAtOffsetAux_spec ns 0 ns.sum offset i hi hmin hreach
    simp only [findTextNodeAtOffset, Bool.false_eq_true, if_false]
    rw [h]
    simp
  · decide
  · decide

/-- Witness for the legacy branch of the decoding theorem: two text nodes
of lengths 12 and 8 (total 20) and the stored offset 35 resolve to local
offset 3 in the second node. -/
theorem offsetDecoding_mode_and_legacy_walk_witness :
    findTextNodeAtOffset [12, 8] 35 false = some (1, 3) := by
  have h := offsetDecoding_mode_and_legacy_walk.2.1 [12, 8] 35 1 (by decide)
    (by
      intro j hj
      have hj0 : j = 0 := by omega
      subst hj0
      decide)
    (by decide)
  exact h

/-- Claim C2: for any two highlights, the overlap relationship never
merges, and the adjacent relationship merges exactly unless both
highlights are text-typed, anchored to the same path, and their resolved
colors differ; since the resolved color of a colorless highlight is the
shared fallback default, two colorless highlights always merge on
adjacency. -/
theorem mergePolicy_overlap_never_adjacent_unless_text_colors :
    (∀ highlight1 highlight2 : HighlightRec,
      shouldAutoMergeHighlights highlight1 highlight2 .overlap = false)
    ∧ (∀ highlight1 highlight2 : HighlightRec,
      shouldAutoMergeHighlights highlight1 highlight2 .adjacent = true ↔
        ¬(highlight1.type = .text ∧ highlight2.type = .text
          ∧ highlight1.xpath = highlight2.xpath
          ∧ resolveHighlightColor highlight1 ≠ resolveHighlightColor highlight2))
    ∧ (∀ highlight1 highlight2 : HighlightRec,
      shouldAutoMergeHighlights { highlight1 with color := none } { highlight2 with color := none }
        .adjacent = true) := by
  refine ⟨?_, ?_, ?_⟩
  · intro highlight1 highlight2
    simp [shouldAutoMergeHighlights]
  · intro highlight1 highlight2
    by_cases hc : highlight1.type = .text ∧ highlight2.type = .text ∧ highlight1.xpath = highlight2.xpath
    · obtain ⟨h1t, h2t, hx⟩ := hc
      simp [shouldAutoMergeHighlights, h1t, h2t, hx]
    · have hb : (highlight1.type == .text && highlight2.type == .text
          && (highlight1.xpath == highlight2.xpath)) = false := by
        rcases Decidable.not_and_iff_or_not.mp hc with h | h
        · simp [beq_eq_false_iff_ne.mpr h]
        · rcases Decidable.not_and_iff_or_not.mp h with h2 | h2
          · simp [beq_eq_false_iff_ne.mpr h2]
          · simp [beq_eq_false_iff_ne.mpr h2]
      simp only [shouldAutoMergeHighlights]
      rw [if_neg (by simp), if_neg (by simp [hb])]
      constructor
      · intro _ hcontr
        exact hc ⟨hcontr.1, hcontr.2.1, hcontr.2.2.1⟩
      · intro _
        rfl
  · intro highlight1 highlight2
    simp only [shouldAutoMergeHighlights]
    rw [if_neg (by simp)]
    split
    · simp [resolveHighlightColor]
    · rfl

/-- Claim C7: processing input rectangles in generation order, an
incoming rectangle is merged into the running rectangle exactly when
their vertical positions and heights each match within one pixel, and
the merge keeps the left edge, top and height of the running rectangle
while extending its right edge to the right edge of the incoming
rectangle (the new width is rect.x + rect.width - currentRect.x); a
mismatching rectangle emits the running rectangle and starts a new one.
Three collinear rects on one line with sub-pixel jitter collapse into a
single box spanning to the last right edge. -/
theorem rectMerge_run_characterization :
    (∀ (currentRect rect : DomRect) (rest : List DomRect),
      mergeRunAux currentRect (rect :: rest) =
        if |rect.y - currentRect.y| < 1 ∧ |rect.height - currentRect.height| < 1 then
          mergeRunAux { currentRect with width := rect.x + rect.width - currentRect.x } rest
        else currentRect :: mergeRunAux rect rest)
    ∧ (∀ rect : DomRect, mergedOverlayRects [rect] = [rect])
    ∧ mergedOverlayRects
        [⟨0, 0, 5, 10⟩, ⟨5, 0, 7, 10⟩, ⟨12, 1/2, 3, 21/2⟩] = [⟨0, 0, 15, 10⟩] := by
  refine ⟨?_, ?_, ?_⟩
  · intro currentRect rect rest
    by_cases h : |rect.y - currentRect.y| < 1 ∧ |rect.height - currentRect.height| < 1
    · simp [mergeRunAux, rectMergeMatches, h.1, h.2, h]
    · rw [if_neg h]
      rw [Decidable.not_and_iff_or_not] at h
      rcases h with h | h <;> simp [mergeRunAux, rectMergeMatches, h]
  · intro rect
    rfl
  · norm_num [mergedOverlayRects, mergeRunAux, rectMergeMatches, abs_lt]

/-- Claim C6 exhibit: a rect planned for a highlight with no existing
overlays creates one overlay; planning the identical rect again, with
the bounding client rect of that overlay as the existing overlay set,
creates a second overlay instead of discarding the duplicate, because
the rendered overlay is expanded by two pixels per edge and therefore
differs from the planned rect by two pixels in position and four in
size, outside the one-pixel duplicate tolerance. -/
theorem rectDedup_replanning_creates_second_overlay :
    (mergeHighlightOverlayRects [⟨100, 100, 50, 10⟩] [] none).length = 1
    ∧ (mergeHighlightOverlayRects [⟨100, 100, 50, 10⟩]
        ((mergeHighlightOverlayRects [⟨100, 100, 50, 10⟩] [] none).map (fun o => o.clientRect))
        none).length = 1
    ∧ (mergeHighlightOverlayRects [⟨100, 100, 50, 10⟩] [] none).map (fun o => o.clientRect)
        = [⟨98, 98, 54, 14⟩] := by
  refine ⟨rfl, ?_, ?_⟩
  · norm_num [mergeHighlightOverlayRects, mergedOverlayRects, mergeRunAux,
      createOverlaysForMergedRects, rectsWithinOnePixel, overlayClientRect, abs_lt]
  · norm_num [mergeHighlightOverlayRects, mergedOverlayRects, mergeRunAux,
      createOverlaysForMergedRects, rectsWithinOnePixel, overlayClientRect, abs_lt]

/-- Claim C8 counterexample: the comment badge test only asks whether the
notes array is non-empty, never whether any note is non-empty, so a
highlight whose single note is the empty string still gets the badge;
and the badge goes to the first rectangle of every merge batch, so a
highlight whose rects split into a text group and a complex group gets
two badged rectangles. -/
theorem commentBadge_claim_counterexample :
    ((mergeHighlightOverlayRects [⟨0, 0, 10, 10⟩] [] (some [""])).map
        (fun o => o.showCommentBadge) = [true]
      ∧ (([""] : List String).all (fun note => note == "")) = true)
    ∧ (processRangeForOverlayRects [⟨0, 0, 10, 10⟩, ⟨0, 20, 10, 100⟩] ⟨0, 0, 50, 50⟩ []
        (some ["note"])).map (fun o => o.showCommentBadge) = [true, true] := by
  refine ⟨⟨rfl, rfl⟩, ?_⟩
  norm_num [processRangeForOverlayRects, calculateAverageLineHeight,
    mergeHighlightOverlayRects, mergedOverlayRects, mergeRunAux,
    createOverlaysForMergedRects, rectsWithinOnePixel, notesListNonempty, List.filter]

/-- Helper for the amended badge claim: every overlay created by the
forEach has the two-pixel expansion and carries the badge exactly on
merged-rect index 0 of a batch with a non-empty notes array. -/
theorem createOverlaysForMergedRects_all_spec (existingOverlayRects : List DomRect)
    (notes : Option (List String)) :
    ∀ (merged : List DomRect) (rectIndex : Nat),
      (createOverlaysForMergedRects existingOverlayRects notes rectIndex merged).all (fun o =>
        o.clientRect == overlayClientRect o.planned
        && (o.showCommentBadge == (notesListNonempty notes && o.mergedIndex == 0))) = true := by
  intro merged
  induction merged with
  | nil =>
    intro rectIndex
    rfl
  | cons rect rest ih =>
    intro rectIndex
    simp only [createOverlaysForMergedRects]
    split
    · exact ih (rectIndex + 1)
    · simp only [List.all_cons, ih (rectIndex + 1), Bool.and_true]
      simp

/-- Claim C8 amended: every overlay element emitted by a merge batch is
expanded by exactly two pixels per edge, and within one call of
mergeHighlightOverlayRects the comment badge is attached exactly to the
surviving rectangle with merged index 0 of a batch whose notes array is
non-empty; the contents of the notes are not inspected, and a highlight
whose rectangles are split into several batches gets one badge per
batch. -/
theorem overlayExpansion_and_badge_rule :
    ∀ (rects existingOverlayRects : List DomRect) (notes : Option (List String)),
      (mergeHighlightOverlayRects rects existingOverlayRects notes).all (fun o =>
        o.clientRect == overlayClientRect o.planned
        && (o.showCommentBadge == (notesListNonempty notes && o.mergedIndex == 0))) = true := by
  intro rects existingOverlayRects notes
  exact createOverlaysForMergedRects_all_spec existingOverlayRects notes (mergedOverlayRects rects) 0

/-- A timestamp parsed from a highlight id is strictly positive. -/
theorem parseHighlightIdTimestamp_pos {v : JVal} {t : ℚ}
    (h : parseHighlightIdTimestamp v = some t) : 0 < t := by
  cases v <;> simp only [parseHighlightIdTimestamp] at h <;> try exact absurd h (by simp)
  case jstr s =>
    cases hp : jsParseInt s with
    | none =>
      rw [hp] at h
      exact absurd h (by simp)
    | some n =>
      rw [hp] at h
      by_cases hn : 0 < n
      · simp only [hn, if_true] at h
        obtain rfl : (n : ℚ) = t := by simpa using h
        exact_mod_cast hn
      · simp only [hn, if_false] at h
        exact absurd h (by simp)

/-- A valid highlight timestamp is exactly a finite strictly positive
number value. -/
theorem isValidHighlightTimestamp_iff (v : JVal) :
    isValidHighlightTimestamp v = true ↔ ∃ q : ℚ, v = JVal.jnum q ∧ 0 < q := by
  cases v <;> simp [isValidHighlightTimestamp]

/-- Claim C9: an identifier that does not parse to a strictly positive
integer (non-strings included) yields no timestamp from the fallback
parser; the normalized creation time is the createdAt value whenever
that value is a finite strictly positive number, otherwise the
identifier-derived timestamp, otherwise the current time. -/
theorem timestampFallback_parse_and_preference :
    ∀ (createdAt highlightId : JVal) (now : ℚ),
      (parseHighlightIdTimestamp highlightId = none ↔ ¬ idParsesToPositiveInt highlightId)
      ∧ normalizeHighlightCreatedAt createdAt highlightId now =
          (if isValidHighlightTimestamp createdAt then jsNumValue createdAt
           else (parseHighlightIdTimestamp highlightId).getD now) := by
  intro createdAt highlightId now
  constructor
  · cases highlightId <;> simp only [parseHighlightIdTimestamp, idParsesToPositiveInt] <;>
      try simp
    case jstr s =>
      cases hp : jsParseInt s with
      | none => simp [hp]
      | some n =>
        by_cases hn : 0 < n
        · simp [hp, hn]
        · simp [hp, hn]
          omega
  · by_cases hv : isValidHighlightTimestamp createdAt
    · rw [if_pos hv]
      obtain ⟨q, rfl, hq⟩ := (isValidHighlightTimestamp_iff createdAt).mp hv
      simp [normalizeHighlightCreatedAt, resolveHighlightCreatedAt, isValidHighlightTimestamp,
        jsNumValue, hq]
    · rw [if_neg hv]
      cases hp : parseHighlightIdTimestamp highlightId with
      | none =>
        simp [normalizeHighlightCreatedAt, resolveHighlightCreatedAt, hv, hp]
      | some t =>
        have ht : 0 < t := parseHighlightIdTimestamp_pos hp
        simp [normalizeHighlightCreatedAt, resolveHighlightCreatedAt, hv, hp, ht]

/-- Folding min over a list never exceeds the initial value. -/
theorem foldl_min_le_init : ∀ (l : List ℚ) (q : ℚ), l.foldl min q ≤ q := by
  intro l
  induction l with
  | nil => intro q; exact le_refl q
  | cons a rest ih =>
    intro q
    exact le_trans (ih (min q a)) (min_le_left q a)

/-- Folding max over a list never drops below the initial value. -/
theorem init_le_foldl_max : ∀ (l : List ℚ) (q : ℚ), q ≤ l.foldl max q := by
  intro l
  induction l with
  | nil => intro q; exact le_refl q
  | cons a rest ih =>
    intro q
    exact le_trans (le_max_left q a) (ih (max q a))

/-- On a non-empty list the spread minimum is at most the spread
maximum. -/
theorem listMinQ_le_listMaxQ : ∀ (l : List ℚ), l ≠ [] → listMinQ l ≤ listMaxQ l := by
  intro l hne
  match l with
  | [] => exact absurd rfl hne
  | q :: rest =>
    exact le_trans (foldl_min_le_init rest q) (init_le_foldl_max rest q)

/-- An emitted page summary has at least one annotation and ordered
first/last creation times. -/
theorem annotationPageOfEntry_some_props {pf : UrlPlatform} {kv : String × JVal}
    {page : AnnotationBrowserPage} (h : annotationPageOfEntry pf kv = some page) :
    1 ≤ page.annotationsCount ∧ page.firstCreatedAt ≤ page.lastCreatedAt := by
  simp only [annotationPageOfEntry] at h
  split at h
  · exact absurd h (by simp)
  · split at h
    · exact absurd h (by simp)
    · split at h
      · exact absurd h (by simp)
      · split at h
        · exact absurd h (by simp)
        · rename_i hrec u hu hhl hts
          obtain rfl := (Option.some.inj h).symm
          refine ⟨?_, ?_⟩
          · have hne : entryHighlightTimestamps pf kv ≠ [] := by
              simpa [List.isEmpty_iff] using hts
            simpa [Nat.succ_le_iff] using List.length_pos.mpr hne
          · exact listMinQ_le_listMaxQ _ (by simpa [List.isEmpty_iff] using hts)

/-- An entry whose URL does not parse or that contributes no resolvable
timestamp emits no page. -/
theorem annotationPageOfEntry_excluded {pf : UrlPlatform} {kv : String × JVal}
    (h : entryExcluded pf kv = true) : annotationPageOfEntry pf kv = none := by
  simp only [entryExcluded, Bool.or_eq_true] at h
  by_cases hrec : jsIsRecord kv.2
  case neg => simp [annotationPageOfEntry, hrec]
  case pos =>
    cases hu : pf.parseUrl (entryRawUrl kv) with
    | none => simp [annotationPageOfEntry, hrec, hu]
    | some u =>
      have hts : (entryHighlightTimestamps pf kv).isEmpty = true := by
        rcases h with h | h
        · rw [hu] at h
          simp at h
        · simpa using h
      by_cases hhl : (entryHighlights kv.2).isEmpty
      · simp [annotationPageOfEntry, hrec, hu, hhl]
      · simp [annotationPageOfEntry, hrec, hu, hhl, hts]

/-- A value that fails the record test has no entries. -/
theorem jsEntries_eq_nil_of_not_record {v : JVal} (h : jsIsRecord v = false) :
    jsEntries v = [] := by
  cases v <;> simp [jsEntries] <;> simp [jsIsRecord] at h

/-- Claim C10: for every raw highlights-storage value, the snapshot
satisfies totalPages = number of emitted pages, totalAnnotations = sum of
the per-page annotation counts, the recent and most-annotated views are
permutations of the emitted page list, every emitted page has at least
one annotation and firstCreatedAt at most lastCreatedAt, and an entry
whose URL does not parse or that contributes no highlight with a
resolvable timestamp emits no page. -/
theorem annotationSnapshot_invariants :
    ∀ (pf : UrlPlatform) (storage : JVal),
      (buildAnnotationBrowserSnapshot pf storage).totalPages = (annotationPages pf storage).length
      ∧ (buildAnnotationBrowserSnapshot pf storage).totalAnnotations =
          ((annotationPages pf storage).map (fun p => p.annotationsCount)).sum
      ∧ ((buildAnnotationBrowserSnapshot pf storage).recentPages).Perm (annotationPages pf storage)
      ∧ ((buildAnnotationBrowserSnapshot pf storage).mostAnnotatedPages).Perm (annotationPages pf storage)
      ∧ ((annotationPages pf storage).all (fun p =>
          decide (1 ≤ p.annotationsCount) && decide (p.firstCreatedAt ≤ p.lastCreatedAt))) = true
      ∧ ((jsEntries storage).all (fun kv =>
          !entryExcluded pf kv || (annotationPageOfEntry pf kv).isNone)) = true := by
  intro pf storage
  have hall : ((annotationPages pf storage).all (fun p =>
      decide (1 ≤ p.annotationsCount) && decide (p.firstCreatedAt ≤ p.lastCreatedAt))) = true := by
    rw [List.all_eq_true]
    intro p hp
    obtain ⟨kv, _, hkv⟩ := List.mem_filterMap.mp hp
    obtain ⟨h1, h2⟩ := annotationPageOfEntry_some_props hkv
    simp [h1, h2]
  have hexcl : ((jsEntries storage).all (fun kv =>
      !entryExcluded pf kv || (annotationPageOfEntry pf kv).isNone)) = true := by
    rw [List.all_eq_true]
    intro kv _
    by_cases he : entryExcluded pf kv = true
    · simp [annotationPageOfEntry_excluded he]
    · have he2 : entryExcluded pf kv = false := by
        cases hb : entryExcluded pf kv
        · rfl
        · exact absurd hb he
      simp [he2]
  by_cases hr : jsIsRecord storage
  · refine ⟨?_, ?_, ?_, ?_, hall, hexcl⟩
    · simp [buildAnnotationBrowserSnapshot, hr]
    · simp [buildAnnotationBrowserSnapshot, hr]
    · simp only [buildAnnotationBrowserSnapshot, hr, Bool.not_true, Bool.false_eq_true, if_false]
      exact List.mergeSort_perm _ _
    · simp only [buildAnnotationBrowserSnapshot, hr, Bool.not_true, Bool.false_eq_true, if_false]
      exact List.mergeSort_perm _ _
  · have hs : jsIsRecord storage = false := by
      cases hb : jsIsRecord storage
      · rfl
      · exact absurd hb hr
    have hpages : annotationPages pf storage = [] := by
      simp [annotationPages, jsEntries_eq_nil_of_not_record hs]
    refine ⟨?_, ?_, ?_, ?_, hall, hexcl⟩ <;>
      simp [buildAnnotationBrowserSnapshot, hs, hpages]

/-- Indices untouched by the restore fold keep their value. -/
theorem foldl_set_getElem?_not_mem :
    ∀ (pairs : List (Nat × String)) (l : List String) (i : Nat),
      i ∉ pairs.map Prod.fst →
      (pairs.foldl (fun acc p => acc.set p.1 p.2) l)[i]? = l[i]? := by
  intro pairs
  induction pairs with
  | nil =>
    intro l i _
    rfl
  | cons q rest ih =>
    intro l i hmem
    have hne : q.1 ≠ i := by
      intro hcontr
      exact hmem (by simp [hcontr])
    have hrest : i ∉ rest.map Prod.fst := by
      intro hcontr
      exact hmem (by simp [hcontr])
    calc (List.foldl (fun acc p => acc.set p.1 p.2) (l.set q.1 q.2) rest)[i]?
        = (l.set q.1 q.2)[i]? := ih (l.set q.1 q.2) i hrest
      _ = l[i]? := by rw [List.getElem?_set]; simp [hne]

/-- With pairwise distinct in-range indices, the restore fold writes every
saved value back at its index. -/
theorem foldl_set_getElem?_mem :
    ∀ (pairs : List (Nat × String)) (l : List String) (p : Nat × String),
      (pairs.map Prod.fst).Nodup →
      (∀ q ∈ pairs, q.1 < l.length) →
      p ∈ pairs →
      (pairs.foldl (fun acc q => acc.set q.1 q.2) l)[p.1]? = some p.2 := by
  intro pairs
  induction pairs with
  | nil =>
    intro l p _ _ hp
    exact absurd hp (by simp)
  | cons q rest ih =>
    intro l p hnodup hlt hp
    have hnodup2 : (rest.map Prod.fst).Nodup := (List.nodup_cons.mp (by simpa using hnodup)).2
    rcases List.mem_cons.mp hp with rfl | hp2
    · have hqrest : p.1 ∉ rest.map Prod.fst := (List.nodup_cons.mp (by simpa using hnodup)).1
      calc (List.foldl (fun acc q => acc.set q.1 q.2) (l.set p.1 p.2) rest)[p.1]?
          = (l.set p.1 p.2)[p.1]? := foldl_set_getElem?_not_mem rest (l.set p.1 p.2) p.1 hqrest
        _ = some p.2 := List.getElem?_set_self (hlt p (by simp))
    · have hlt2 : ∀ r ∈ rest, r.1 < (l.set q.1 q.2).length := by
        intro r hr
        rw [List.length_set]
        exact hlt r (by simp [hr])
      exact ih (l.set q.1 q.2) p hnodup2 hlt2 hp2

/-- The JavaScript map-with-index seen through list indexing. -/
theorem jsMapWithIndexAux_getElem? :
    ∀ {α β : Type} (l : List α) (f : Nat → α → β) (i j : Nat),
      (jsMapWithIndexAux f i l)[j]? = (l[j]?).map (f (i + j)) := by
  intro α β l
  induction l with
  | nil =>
    intro f i j
    rfl
  | cons a rest ih =>
    intro f i j
    cases j with
    | zero => simp [jsMapWithIndexAux]
    | succ k =>
      simp only [jsMapWithIndexAux, List.getElem?_cons_succ]
      rw [ih f (i + 1) k]
      have harith : i + 1 + k = i + (k + 1) := by omega
      rw [harith]

theorem jsMapWithIndex_getElem? {α β : Type} (l : List α) (f : Nat → α → β) (j : Nat) :
    (jsMapWithIndex f l)[j]? = (l[j]?).map (f j) := by
  have h := jsMapWithIndexAux_getElem? l f 0 j
  simpa [jsMapWithIndex] using h

/-- Claim C3: at most one drag session is active at a time (the session
slot holds at most one session), and arming a new drag while a session is
active decomposes as a full teardown of the prior session followed by the
installation of the new one: in the intermediate torn-down state the
session slot is empty, the drag-scoped document listeners are removed,
the pointer capture of the prior session is released, and every suspended
overlay has its saved pointer-events value restored; afterwards exactly
the new session is installed. -/
theorem singleDragSession_teardown_before_install :
    ∀ (s : EngineState) (drag : OffsetHandleDragState) (edge : OffsetHandleEdge)
      (clientX clientY : Int) (inputType : OffsetHandleDragInputType) (pointerId : Option Nat)
      (anchor focus : SelPoint),
      s.activeOffsetHandleDrag = some drag →
      resolveOpposingEdgeAnchor edge s = some (anchor, focus) →
      (drag.disabledOverlayPointerEvents.map Prod.fst).Nodup →
      (∀ p ∈ drag.disabledOverlayPointerEvents, p.1 < s.overlayPointerEvents.length) →
      beginOffsetHandleDrag edge clientX clientY inputType pointerId s =
        installOffsetHandleDragSession edge clientX clientY inputType pointerId anchor
          (teardownOffsetHandleDrag (applyNativeSelection anchor focus s))
      ∧ (teardownOffsetHandleDrag (applyNativeSelection anchor focus s)).activeOffsetHandleDrag = none
      ∧ (teardownOffsetHandleDrag (applyNativeSelection anchor focus s)).dragListenersInstalled = false
      ∧ (∀ pid, drag.pointerId = some pid →
          ¬ (teardownOffsetHandleDrag (applyNativeSelection anchor focus s)).capturedPointer = some pid)
      ∧ (∀ p ∈ drag.disabledOverlayPointerEvents,
          (teardownOffsetHandleDrag (applyNativeSelection anchor focus s)).overlayPointerEvents[p.1]?
            = some p.2)
      ∧ ((beginOffsetHandleDrag edge clientX clientY inputType pointerId s).activeOffsetHandleDrag).isSome
          = true := by
  intro s drag edge clientX clientY inputType pointerId anchor focus hactive hres hnodup hbound
  have hA : (applyNativeSelection anchor focus s).activeOffsetHandleDrag = some drag := by
    simp only [applyNativeSelection]
    split <;> exact hactive
  have hov : (applyNativeSelection anchor focus s).overlayPointerEvents = s.overlayPointerEvents := by
    simp only [applyNativeSelection]
    split <;> rfl
  refine ⟨?_, ?_, ?_, ?_, ?_, ?_⟩
  · simp only [beginOffsetHandleDrag, hres]
    rw [if_pos (by rw [hA]; rfl)]
  · simp only [teardownOffsetHandleDrag, hA]
  · simp only [teardownOffsetHandleDrag, hA]
  · intro pid hpid
    simp only [teardownOffsetHandleDrag, hA, hpid]
    by_cases hc : (applyNativeSelection anchor focus s).capturedPointer == some pid
    · simp [hc]
    · have hcf : ((applyNativeSelection anchor focus s).capturedPointer == some pid) = false := by
        cases hb : ((applyNativeSelection anchor focus s).capturedPointer == some pid)
        · rfl
        · exact absurd hb hc
      simp only [hcf, Bool.false_eq_true, if_false]
      intro hcontr
      rw [hcontr] at hcf
      simp at hcf
  · intro p hp
    simp only [teardownOffsetHandleDrag, hA, hov]
    exact foldl_set_getElem?_mem drag.disabledOverlayPointerEvents s.overlayPointerEvents p
      hnodup hbound hp
  · simp only [beginOffsetHandleDrag, hres]
    rw [if_pos (by rw [hA]; rfl)]
    simp [installOffsetHandleDragSession]

/-- Witness for the single-session theorem on a concrete active-drag
state: overlay 0 gets its saved value restored, the prior captured
pointer 5 is released, the listeners are gone, and the re-arm equals
install-after-teardown. -/
theorem singleDragSession_witness :
    beginOffsetHandleDrag .edgeStart 3 4 .pointer (some 9) sampleActiveDragState =
      installOffsetHandleDragSession .edgeStart 3 4 .pointer (some 9) { node := 0, offset := 5 }
        (teardownOffsetHandleDrag
          (applyNativeSelection { node := 0, offset := 5 } { node := 0, offset := 0 }
            sampleActiveDragState))
    ∧ (teardownOffsetHandleDrag
        (applyNativeSelection { node := 0, offset := 5 } { node := 0, offset := 0 }
          sampleActiveDragState)).activeOffsetHandleDrag = none
    ∧ (teardownOffsetHandleDrag
        (applyNativeSelection { node := 0, offset := 5 } { node := 0, offset := 0 }
          sampleActiveDragState)).dragListenersInstalled = false
    ∧ ¬ (teardownOffsetHandleDrag
        (applyNativeSelection { node := 0, offset := 5 } { node := 0, offset := 0 }
          sampleActiveDragState)).capturedPointer = some 5
    ∧ (teardownOffsetHandleDrag
        (applyNativeSelection { node := 0, offset := 5 } { node := 0, offset := 0 }
          sampleActiveDragState)).overlayPointerEvents[0]? = some "auto"
    ∧ ((beginOffsetHandleDrag .edgeStart 3 4 .pointer (some 9)
          sampleActiveDragState).activeOffsetHandleDrag).isSome = true := by
  have h := singleDragSession_teardown_before_install sampleActiveDragState sampleDragSession
    .edgeStart 3 4 .pointer (some 9) { node := 0, offset := 5 } { node := 0, offset := 0 }
    rfl rfl (by decide) (by decide)
  exact ⟨h.1, h.2.1, h.2.2.1, h.2.2.2.1 5 rfl, h.2.2.2.2.1 (0, "auto") (by decide), h.2.2.2.2.2⟩

/-- Claim C4: a drag session released with the has-moved flag unset and
the selection text equal to the pre-drag snapshot is discarded by the
commit path: the persistence collaborator is not invoked, the highlight
records are unchanged, and the session slot is cleared. -/
theorem dragNoop_discards_without_persisting :
    ∀ (s : EngineState) (drag : OffsetHandleDragState) (clientX clientY : Int),
      s.activeOffsetHandleDrag = some drag →
      drag.hasMoved = false →
      selectionToString s = drag.initialSelectionText →
      (finalizeOffsetHandleDrag clientX clientY s).persistCalls = s.persistCalls
      ∧ (finalizeOffsetHandleDrag clientX clientY s).highlights = s.highlights
      ∧ (finalizeOffsetHandleDrag clientX clientY s).activeOffsetHandleDrag = none := by
  intro s drag clientX clientY hactive hmoved htext
  simp only [finalizeOffsetHandleDrag, hactive, hmoved, htext, beq_self_eq_true, Bool.not_true,
    Bool.or_false, Bool.false_or, Bool.not_false, Bool.true_or, if_true]
  simp [teardownOffsetHandleDrag, hactive]

/-- Witness for the drag no-op theorem on a concrete active-drag state
with no range in the selection and an empty pre-drag snapshot. -/
theorem dragNoop_witness :
    (finalizeOffsetHandleDrag 0 0 sampleActiveDragState).persistCalls = 7
    ∧ (finalizeOffsetHandleDrag 0 0 sampleActiveDragState).highlights = [sampleTextHighlight]
    ∧ (finalizeOffsetHandleDrag 0 0 sampleActiveDragState).activeOffsetHandleDrag = none := by
  have h := dragNoop_discards_without_persisting sampleActiveDragState sampleDragSession 0 0
    rfl rfl rfl
  exact ⟨h.1, h.2.1, h.2.2⟩

/-- Claim C5: when a resize commit derives offsets from the live
selection, every updated text highlight receives the ordered pair
(min, max) of the two raw boundary offsets, so startOffset is at most
endOffset after interpretation, and whenever the raw boundary order was
reversed the two offsets are swapped before being written back. -/
theorem resizeCommit_orders_offsets :
    ∀ (s : EngineState) (sel : SelectionModel) (highlight : HighlightRec),
      s.selection = some sel →
      sel.rangeStart ≠ sel.rangeEnd →
      resolveSelectedTextHighlight s = some highlight →
      ∀ (i : Nat) (item : HighlightRec) (rawStart rawEnd : Nat),
        s.highlights[i]? = some item →
        isTargetHighlightAt s i item = true →
        item.type = .text →
        rawStart = getLegacyTextOffset (textNodeLengths s) sel.rangeStart →
        rawEnd = getLegacyTextOffset (textNodeLengths s) sel.rangeEnd →
        rawStart ≠ rawEnd →
        ((updateSelectedTextHighlightFromSelection s).1.highlights[i]? =
            some { item with startOffset := min rawStart rawEnd, endOffset := max rawStart rawEnd,
                             content := selectionToString s })
        ∧ min rawStart rawEnd ≤ max rawStart rawEnd
        ∧ (rawEnd < rawStart → min rawStart rawEnd = rawEnd ∧ max rawStart rawEnd = rawStart) := by
  intro s sel highlight hsel hne hres i item rawStart rawEnd hitem htarget htype hrs hre hraw
  subst hrs
  subst hre
  have hcol : (sel.rangeStart == sel.rangeEnd) = false := beq_eq_false_iff_ne.mpr hne
  have hmm : ((min (getLegacyTextOffset (textNodeLengths s) sel.rangeStart)
        (getLegacyTextOffset (textNodeLengths s) sel.rangeEnd)) ==
      (max (getLegacyTextOffset (textNodeLengths s) sel.rangeStart)
        (getLegacyTextOffset (textNodeLengths s) sel.rangeEnd))) = false := by
    rw [beq_eq_false_iff_ne]
    omega
  refine ⟨?_, by omega, fun hlt => ⟨by omega, by omega⟩⟩
  simp only [updateSelectedTextHighlightFromSelection, hsel, hcol, Bool.false_eq_true, if_false,
    hres, hmm]
  rw [jsMapWithIndex_getElem?, hitem]
  have htypeb : (item.type == HighlightType.text) = true := by
    rw [htype]
    rfl
  simp [htarget, htypeb]
  intro hcontr
  exact absurd htype hcontr

/-- Witness for the offset ordering theorem: a selection captured in
reverse (raw offsets 4 then 2) is written back swapped as (2, 4). -/
theorem resizeCommit_orders_offsets_witness :
    ((updateSelectedTextHighlightFromSelection sampleReversedSelectionState).1.highlights[0]? =
        some { sampleTextHighlight with startOffset := 2, endOffset := 4, content := "ab" })
    ∧ (2 : Nat) ≤ 4
    ∧ ((2 : Nat) = 2 ∧ (4 : Nat) = 4) := by
  have h := resizeCommit_orders_offsets sampleReversedSelectionState
    { rangeStart := { node := 0, offset := 2 }, rangeEnd := { node := 0, offset := 0 } }
    sampleTextHighlight rfl (by decide) rfl 0 sampleTextHighlight 4 2 rfl rfl rfl rfl rfl
    (by decide)
  exact ⟨h.1, h.2.1, h.2.2 (by decide)⟩

/-- Witness for the merge policy theorem at a concrete pair: a highlight
never merges with itself under the overlap relationship, and two
colorless copies merge on adjacency. -/
theorem mergePolicy_witness :
    shouldAutoMergeHighlights sampleTextHighlight sampleTextHighlight .overlap = false
    ∧ shouldAutoMergeHighlights { sampleTextHighlight with color := none }
        { sampleTextHighlight with color := none } .adjacent = true :=
  ⟨mergePolicy_overlap_never_adjacent_unless_text_colors.1 sampleTextHighlight sampleTextHighlight,
   mergePolicy_overlap_never_adjacent_unless_text_colors.2.2 sampleTextHighlight sampleTextHighlight⟩

/-- Witness for the rect merge characterization at a concrete singleton
input. -/
theorem rectMerge_run_characterization_witness :
    mergedOverlayRects [⟨1, 2, 3, 4⟩] = [⟨1, 2, 3, 4⟩] :=
  rectMerge_run_characterization.2.1 ⟨1, 2, 3, 4⟩

/-- Witness for the timestamp fallback theorem: a null createdAt together
with a non-numeric identifier resolves to the current time. -/
theorem timestampFallback_witness :
    normalizeHighlightCreatedAt JVal.jnull (JVal.jstr "abc") 5 = 5 :=
  (timestampFallback_parse_and_preference JVal.jnull (JVal.jstr "abc") 5).2

/-- Witness for the snapshot invariants at a concrete non-record storage
value. -/
theorem annotationSnapshot_invariants_witness :
    (buildAnnotationBrowserSnapshot sampleUrlPlatform JVal.jnull).totalPages = 0
    ∧ (buildAnnotationBrowserSnapshot sampleUrlPlatform JVal.jnull).totalAnnotations = 0 :=
  ⟨(annotationSnapshot_invariants sampleUrlPlatform JVal.jnull).1,
   (annotationSnapshot_invariants sampleUrlPlatform JVal.jnull).2.1⟩

/-- Witness for the expansion and badge rule at a concrete batch. -/
theorem overlayExpansion_and_badge_rule_witness :
    (mergeHighlightOverlayRects [⟨0, 0, 1, 1⟩] [] none).all (fun o =>
      o.clientRect == overlayClientRect o.planned
      && (o.showCommentBadge == (notesListNonempty none && o.mergedIndex == 0))) = true :=
  overlayExpansion_and_badge_rule [⟨0, 0, 1, 1⟩] [] none
